import Mathlib

/-!
Verification of the vite-plugin-ssr configuration code-splitting engine
(deferred-reference rewrite and resolution) and of the auxiliary example
code that ships with the repository.

Strings are modelled as `List Char`.
-/

namespace VPS

/-! ### Token wire format -/

/-- Modelled from the spec: the fixed token marker of the wire format
`"__file:" <modulePath> ":" <exportName>` (the token parser and rewriter
implementation is not part of the provided sources, only the documented
before/after examples are). -/
def tokenHead : List Char := ['_', '_', 'f', 'i', 'l', 'e', ':']

/-- Modelled from the spec: serialization of a deferred reference into its
token string. -/
def mkToken (modulePath exportName : List Char) : List Char :=
  tokenHead ++ modulePath ++ ':' :: exportName

/-- `hasHead h s` tests whether the list `s` starts with `h`. -/
def hasHead : List Char → List Char → Bool
  | [], _ => true
  | _ :: _, [] => false
  | p :: ps, c :: cs => p = c && hasHead ps cs

/-- Split a character list at its last colon, returning the parts before and
after it; `none` when no colon occurs. -/
def splitLast : List Char → Option (List Char × List Char)
  | [] => none
  | c :: rest =>
    match splitLast rest with
    | some (p, n) => some (c :: p, n)
    | none => if c = ':' then some ([], rest) else none

/-- A configuration value read at run time: either a plain literal string or
a decoded deferred reference. -/
inductive ConfigValue
  | literal (s : List Char)
  | deferredRef (modulePath exportName : List Char)
deriving DecidableEq, Repr

/-- Result of the token parser. -/
inductive ParseResult
  | ok (v : ConfigValue)
  | malformedToken
deriving DecidableEq, Repr

/-- Modelled from the spec: the Token Parser. Recognizes the fixed marker;
if absent the value is returned as-is; if present the remainder is split at
its last delimiter into `(modulePath, exportName)`, and failure to find the
delimiter is a `MalformedToken` error. Purely syntactic: a total function
on the string, with no effects. -/
def parseToken (s : List Char) : ParseResult :=
  if hasHead tokenHead s then
    match splitLast (s.drop tokenHead.length) with
    | some (p, n) => .ok (.deferredRef p n)
    | none => .malformedToken
  else .ok (.literal s)

/-! ### Parser lemmas -/

theorem hasHead_append (h s : List Char) : hasHead h (h ++ s) = true := by
  induction h with
  | nil => rfl
  | cons c cs ih => simp [hasHead, ih]

theorem splitLast_no_colon (n : List Char) (h : ':' ∉ n) : splitLast n = none := by
  induction n with
  | nil => rfl
  | cons c cs ih =>
    simp only [List.mem_cons, not_or] at h
    have h1 : ¬c = ':' := fun hc => h.1 hc.symm
    simp [splitLast, ih h.2, h1]

theorem splitLast_mk (p n : List Char) (h : ':' ∉ n) :
    splitLast (p ++ ':' :: n) = some (p, n) := by
  induction p with
  | nil => simp [splitLast, splitLast_no_colon n h]
  | cons c cs ih => simp [splitLast, ih]

theorem parseToken_mkToken (p n : List Char) (h : ':' ∉ n) :
    parseToken (mkToken p n) = .ok (.deferredRef p n) := by
  unfold parseToken mkToken
  rw [List.append_assoc, List.drop_left]
  simp [hasHead_append, splitLast_mk p n h]

/-! ### Static import graph scanner and token rewriter -/

/-- One imported identifier of a configuration module: local name, source
module specifier, and source export name (`default` or a named export). -/
structure ImportBinding where
  localName : List Char
  modulePath : List Char
  exportName : List Char
deriving DecidableEq, Repr

/-- The value of one property of the default-exported object literal: an
identifier reference or a string literal. -/
inductive PropValue
  | ident (name : List Char)
  | stringLit (s : List Char)
deriving DecidableEq, Repr

/-- A configuration module of the supported shape: top-level import
declarations plus one default-exported object literal mapping exported
names to values. -/
structure ConfigModule where
  imports : List ImportBinding
  exports : List (List Char × PropValue)
deriving DecidableEq, Repr

/-- First import binding of the module with the given local name. -/
def lookupBinding (imps : List ImportBinding) (l : List Char) : Option ImportBinding :=
  imps.find? (fun b => b.localName == l)

/-- Modelled from the spec: the Static Import Graph Scanner (its
implementation is not part of the provided sources). Yields, in order, the
`(exportedName, ImportBinding)` pairs of those exported properties whose
value is an identifier bound by a top-level import declaration. -/
def scan (m : ConfigModule) : List (List Char × ImportBinding) :=
  m.exports.filterMap (fun e =>
    match e.2 with
    | .ident l => (lookupBinding m.imports l).map (fun b => (e.1, b))
    | .stringLit _ => none)

/-- Rewrite one property value: an identifier bound by an import becomes the
string-literal token of that binding; everything else is untouched. -/
def rewriteValue (imps : List ImportBinding) (v : PropValue) : PropValue :=
  match v with
  | .ident l =>
    match lookupBinding imps l with
    | some b => .stringLit (mkToken b.modulePath b.exportName)
    | none => v
  | .stringLit _ => v

/-- Whether the rewrite consumes the binding `b`: some exported property is
an identifier that resolves to `b`. -/
def consumed (m : ConfigModule) (b : ImportBinding) : Bool :=
  m.exports.any (fun e =>
    match e.2 with
    | .ident l => decide (lookupBinding m.imports l = some b)
    | .stringLit _ => false)

/-- Modelled from the spec: the Reference Token Rewriter (its implementation
is not part of the provided sources). Every eligible identifier value is
replaced by its token string literal, and import declarations all of whose
uses were rewritten are removed. -/
def rewriteModule (m : ConfigModule) : ConfigModule :=
  { imports := m.imports.filter (fun b => !consumed m b)
    exports := m.exports.map (fun e => (e.1, rewriteValue m.imports e.2)) }

/-- The documented example module `/pages/some-page/+config.js`:
`import Page from ./some-file`, `import { onBeforeRender } from
./some-other-file`, `export default { Page, onBeforeRender }`. -/
def examplePage : ConfigModule :=
  { imports :=
      [⟨("Page".toList), ("./some-file".toList), ("default".toList)⟩,
       ⟨("onBeforeRender".toList), ("./some-other-file".toList), ("onBeforeRender".toList)⟩]
    exports :=
      [(("Page".toList), .ident ("Page".toList)),
       (("onBeforeRender".toList), .ident ("onBeforeRender".toList))] }

/-! ### Rewriter lemmas -/

theorem lookupBinding_filter_none (imps : List ImportBinding) (q : ImportBinding → Bool)
    (l : List Char) (h : lookupBinding imps l = none) :
    lookupBinding (imps.filter q) l = none := by
  rw [lookupBinding, List.find?_eq_none] at h ⊢
  exact fun b hb => h b (List.mem_of_mem_filter hb)

theorem rewriteModule_exports_cases (m : ConfigModule) (n : List Char) (v : PropValue)
    (h : (n, v) ∈ (rewriteModule m).exports) :
    (∃ s, v = .stringLit s) ∨
      (∃ l, v = .ident l ∧ lookupBinding m.imports l = none) := by
  simp only [rewriteModule, List.mem_map] at h
  obtain ⟨⟨n0, v0⟩, _, hv⟩ := h
  have hv2 : rewriteValue m.imports v0 = v := congrArg Prod.snd hv
  cases v0 with
  | stringLit s => exact .inl ⟨s, by simpa [rewriteValue] using hv2.symm⟩
  | ident l =>
    cases hb : lookupBinding m.imports l with
    | some b =>
      left
      refine ⟨mkToken b.modulePath b.exportName, ?_⟩
      rw [← hv2]
      simp [rewriteValue, hb]
    | none =>
      right
      refine ⟨l, ?_, hb⟩
      rw [← hv2]
      simp [rewriteValue, hb]

theorem rewriteValue_of_rewritten (m : ConfigModule) (e : List Char × PropValue)
    (h : e ∈ (rewriteModule m).exports) :
    rewriteValue (rewriteModule m).imports e.2 = e.2 := by
  obtain ⟨n, v⟩ := e
  rcases rewriteModule_exports_cases m n v h with ⟨s, rfl⟩ | ⟨l, rfl, hl⟩
  · rfl
  · have hnone : lookupBinding (rewriteModule m).imports l = none :=
      lookupBinding_filter_none m.imports _ l hl
    simp [rewriteValue, hnone]

theorem consumed_rewriteModule (m : ConfigModule) (b : ImportBinding) :
    consumed (rewriteModule m) b = false := by
  rw [consumed]
  apply List.any_eq_false.mpr
  intro e he
  rcases rewriteModule_exports_cases m e.1 e.2 he with ⟨s, hs⟩ | ⟨l, hl, hnone⟩
  · simp [hs]
  · have hnone2 : lookupBinding (rewriteModule m).imports l = none :=
      lookupBinding_filter_none m.imports _ l hnone
    simp [hl, hnone2]

theorem scan_rewriteModule (m : ConfigModule) : scan (rewriteModule m) = [] := by
  rw [scan]
  apply List.filterMap_eq_nil_iff.mpr
  intro e he
  rcases rewriteModule_exports_cases m e.1 e.2 he with ⟨s, hs⟩ | ⟨l, hl, hnone⟩
  · simp [hs]
  · have hnone2 : lookupBinding (rewriteModule m).imports l = none :=
      lookupBinding_filter_none m.imports _ l hnone
    simp [hl, hnone2]

/-! ### Claim theorems about the rewriter and parser -/

/-- C1: rewriting the documented example module, whose `Page` is imported as
the default export of `./some-file` and whose `onBeforeRender` is imported
as the named export `onBeforeRender` of `./some-other-file`, produces an
object literal whose property values are exactly the string literals
`__file:./some-file:default` and `__file:./some-other-file:onBeforeRender`. -/
theorem C1_example_rewrite :
    (rewriteModule examplePage).exports =
      [(("Page".toList), .stringLit ("__file:./some-file:default".toList)),
       (("onBeforeRender".toList),
         .stringLit ("__file:./some-other-file:onBeforeRender".toList))] := by
  decide

/-- C2: round-trip law. For every configuration module of the supported
shape, each `(exportedName, binding)` pair found by the scanner appears in
the rewritten module as the token string literal of that binding, and the
token parser decodes that token back to exactly the `(modulePath,
exportName)` pair of the binding. The hypothesis captures the token-grammar
invariant that an export name is an identifier or `default`, hence free of
the delimiter. -/
theorem C2_roundTrip (m : ConfigModule) (n : List Char) (b : ImportBinding)
    (hmem : (n, b) ∈ scan m) (hnc : ':' ∉ b.exportName) :
    (n, PropValue.stringLit (mkToken b.modulePath b.exportName)) ∈ (rewriteModule m).exports ∧
      parseToken (mkToken b.modulePath b.exportName) =
        .ok (.deferredRef b.modulePath b.exportName) := by
  constructor
  · simp only [scan, List.mem_filterMap] at hmem
    obtain ⟨⟨n0, v0⟩, he, hf⟩ := hmem
    cases v0 with
    | stringLit s => simp at hf
    | ident l =>
      dsimp only at hf
      cases hb : lookupBinding m.imports l with
      | none => rw [hb] at hf; simp at hf
      | some b0 =>
        rw [hb] at hf
        simp only [Option.map_some', Option.some.injEq, Prod.mk.injEq] at hf
        obtain ⟨h1, h2⟩ := hf
        subst h1; subst h2
        simp only [rewriteModule, List.mem_map]
        exact ⟨(n0, .ident l), he, by simp [rewriteValue, hb]⟩
  · exact parseToken_mkToken _ _ hnc

theorem C2_roundTrip_witness :
    ("Page".toList, PropValue.stringLit
        (mkToken ("./some-file".toList) ("default".toList))) ∈
        (rewriteModule examplePage).exports ∧
      parseToken (mkToken ("./some-file".toList) ("default".toList)) =
        .ok (.deferredRef ("./some-file".toList) ("default".toList)) :=
  C2_roundTrip examplePage ("Page".toList)
    ⟨("Page".toList), ("./some-file".toList), ("default".toList)⟩
    (by decide) (by decide)

/-- C3: the rewrite is idempotent — rewriting the rewritten module changes
nothing, and re-scanning the rewritten module finds no further eligible
bindings. -/
theorem C3_rewrite_idempotent (m : ConfigModule) :
    rewriteModule (rewriteModule m) = rewriteModule m ∧ scan (rewriteModule m) = [] := by
  refine ⟨?_, scan_rewriteModule m⟩
  have hform : rewriteModule (rewriteModule m) =
      { imports := (rewriteModule m).imports.filter (fun b => !consumed (rewriteModule m) b)
        exports := (rewriteModule m).exports.map
          (fun e => (e.1, rewriteValue (rewriteModule m).imports e.2)) } := rfl
  have h1 : (rewriteModule m).imports.filter (fun b => !consumed (rewriteModule m) b) =
      (rewriteModule m).imports := by
    apply List.filter_eq_self.mpr
    intro b _
    simp [consumed_rewriteModule]
  have h2 : (rewriteModule m).exports.map
      (fun e => (e.1, rewriteValue (rewriteModule m).imports e.2)) =
      (rewriteModule m).exports := by
    have hid : ∀ e ∈ (rewriteModule m).exports,
        (e.1, rewriteValue (rewriteModule m).imports e.2) = e := by
      intro e he
      rw [rewriteValue_of_rewritten m e he]
    calc (rewriteModule m).exports.map (fun e => (e.1, rewriteValue (rewriteModule m).imports e.2))
        = (rewriteModule m).exports.map id := List.map_congr_left hid
      _ = (rewriteModule m).exports := List.map_id _
  rw [hform, h1, h2]

/-- C6: a string that carries the token marker but no delimiter-separated
two-part suffix after it is rejected by the token parser as a malformed
token. -/
theorem C6_malformedToken (s : List Char) (h1 : hasHead tokenHead s = true)
    (h2 : ':' ∉ s.drop tokenHead.length) : parseToken s = .malformedToken := by
  rw [parseToken, if_pos h1, splitLast_no_colon _ h2]

theorem C6_malformedToken_witness : parseToken ("__file:./x".toList) = .malformedToken :=
  C6_malformedToken ("__file:./x".toList) (by decide) (by decide)

/-- C7: a string without the token marker is returned by the token parser
as-is, as a literal string value; `parseToken` is a pure total function, so
the decoding performs no effects. -/
theorem C7_literal_passthrough (s : List Char) (h : hasHead tokenHead s = false) :
    parseToken s = .ok (.literal s) := by
  rw [parseToken, if_neg]
  simp [h]

theorem C7_literal_passthrough_witness :
    parseToken ("hello".toList) = .ok (.literal ("hello".toList)) :=
  C7_literal_passthrough ("hello".toList) (by decide)

/-! ### Environment-gated loader and resolution cache -/

/-- The execution environment tag of a resolution request. -/
inductive Env
  | server
  | client
deriving DecidableEq, Repr

/-- Outcome of loading one module: its namespace (export name to value,
values abstracted as naturals) or a load failure. -/
inductive LoadOutcome
  | ns (exports : List (List Char × Nat))
  | failure
deriving DecidableEq, Repr

/-- Modelled from the spec: the process-wide Resolution Cache (its
implementation is not part of the provided sources): completed loads keyed
by module path, plus the log of the underlying loads actually issued. -/
structure CacheState where
  cache : List (List Char × LoadOutcome)
  loads : List (List Char)
deriving DecidableEq, Repr

/-- The cache at process start: empty, no load issued yet. -/
def initCache : CacheState := ⟨[], []⟩

/-- Completed outcome cached for a module path, if any. -/
def lookupCache (st : CacheState) (p : List Char) : Option LoadOutcome :=
  (st.cache.find? (fun e => e.1 == p)).map (fun e => e.2)

/-- Modelled from the spec: load a module through the cache. A cache hit
returns the recorded outcome; a miss issues one underlying load (`fs`),
records its outcome — success or failure — and logs the load. -/
def loadModule (fs : List Char → LoadOutcome) (st : CacheState) (p : List Char) :
    CacheState × LoadOutcome :=
  match lookupCache st p with
  | some out => (st, out)
  | none =>
    (⟨(p, fs p) :: st.cache, st.loads ++ [p]⟩, fs p)

/-- Result of one resolution request. -/
inductive ResolveResult
  | notApplicable
  | resolved (v : Nat)
  | exportNotFound
  | moduleLoadFailure
deriving DecidableEq, Repr

/-- Modelled from the spec: the Environment-Gated Loader (its implementation
is not part of the provided sources). If the environment the reference is
tagged for differs from the current one, the placeholder `notApplicable` is
returned and no load happens; otherwise the module is loaded through the
cache and the named export is read. -/
def resolveRef (fs : List Char → LoadOutcome) (st : CacheState) (refEnv curEnv : Env)
    (p x : List Char) : CacheState × ResolveResult :=
  if refEnv = curEnv then
    match loadModule fs st p with
    | (st2, .ns exps) =>
      match (exps.find? (fun e => e.1 == x)).map (fun e => e.2) with
      | some v => (st2, .resolved v)
      | none => (st2, .exportNotFound)
    | (st2, .failure) => (st2, .moduleLoadFailure)
  else (st, .notApplicable)

/-- Run a sequence of resolution requests `(refEnv, curEnv, path, name)`
from a starting cache state. -/
def runResolves (fs : List Char → LoadOutcome) (st : CacheState)
    (reqs : List (Env × Env × List Char × List Char)) : CacheState :=
  reqs.foldl (fun s r => (resolveRef fs s r.1 r.2.1 r.2.2.1 r.2.2.2).1) st

/-! ### Cache lemmas -/

theorem loadModule_hit (fs : List Char → LoadOutcome) (st : CacheState) (p : List Char)
    (out : LoadOutcome) (h : lookupCache st p = some out) :
    loadModule fs st p = (st, out) := by
  rw [loadModule, h]

theorem loadModule_miss (fs : List Char → LoadOutcome) (st : CacheState) (p : List Char)
    (h : lookupCache st p = none) :
    loadModule fs st p = (⟨(p, fs p) :: st.cache, st.loads ++ [p]⟩, fs p) := by
  rw [loadModule, h]

theorem resolveRef_fst (fs : List Char → LoadOutcome) (st : CacheState) (env : Env)
    (p x : List Char) :
    (resolveRef fs st env env p x).1 = (loadModule fs st p).1 := by
  rw [resolveRef, if_pos rfl]
  rcases hl : loadModule fs st p with ⟨st2, out⟩
  cases out with
  | ns exps =>
    cases hfind : (exps.find? (fun e => e.1 == x)).map (fun e => e.2) <;> simp [hfind]
  | failure => simp

theorem resolveRef_fst_ne (fs : List Char → LoadOutcome) (st : CacheState)
    (refEnv curEnv : Env) (p x : List Char) (h : ¬refEnv = curEnv) :
    (resolveRef fs st refEnv curEnv p x).1 = st := by
  rw [resolveRef, if_neg h]

theorem lookupCache_head (c : List (List Char × LoadOutcome)) (ls : List (List Char))
    (p : List Char) (out : LoadOutcome) :
    lookupCache ⟨(p, out) :: c, ls⟩ p = some out := by
  simp [lookupCache, List.find?_cons]

theorem lookupCache_tail (c : List (List Char × LoadOutcome)) (ls ls2 : List (List Char))
    (p q : List Char) (out : LoadOutcome) (h : ¬p = q) :
    lookupCache ⟨(p, out) :: c, ls⟩ q = lookupCache ⟨c, ls2⟩ q := by
  simp only [lookupCache, List.find?_cons]
  have hb : ((p, out).1 == q) = false := by simpa using h
  rw [hb]

/-- The cache invariant: the log of issued loads has no duplicate path, and
every logged path has a completed entry in the cache. -/
def CacheInv (st : CacheState) : Prop :=
  st.loads.Nodup ∧ ∀ p ∈ st.loads, lookupCache st p ≠ none

theorem cacheInv_init : CacheInv initCache := by
  constructor
  · exact List.nodup_nil
  · intro p hp
    simp [initCache] at hp

theorem cacheInv_load (fs : List Char → LoadOutcome) (st : CacheState) (p : List Char)
    (h : CacheInv st) : CacheInv (loadModule fs st p).1 := by
  cases hl : lookupCache st p with
  | some out => rw [loadModule_hit fs st p out hl]; exact h
  | none =>
    rw [loadModule_miss fs st p hl]
    constructor
    · refine List.Nodup.append h.1 (List.nodup_singleton p) ?_
      intro q hq hq2
      simp only [List.mem_singleton] at hq2
      subst hq2
      exact h.2 q hq hl
    · intro q hq
      by_cases hpq : p = q
      · subst hpq
        rw [lookupCache_head]
        simp
      · rw [lookupCache_tail st.cache _ st.loads p q (fs p) hpq]
        simp only [List.mem_append, List.mem_singleton] at hq
        rcases hq with hq | hq
        · exact h.2 q hq
        · exact absurd hq.symm hpq

theorem cacheInv_resolve (fs : List Char → LoadOutcome) (st : CacheState)
    (refEnv curEnv : Env) (p x : List Char) (h : CacheInv st) :
    CacheInv (resolveRef fs st refEnv curEnv p x).1 := by
  by_cases he : refEnv = curEnv
  · subst he
    rw [resolveRef_fst]
    exact cacheInv_load fs st p h
  · rw [resolveRef_fst_ne fs st refEnv curEnv p x he]
    exact h

theorem cacheInv_run (fs : List Char → LoadOutcome)
    (reqs : List (Env × Env × List Char × List Char)) (st : CacheState) (h : CacheInv st) :
    CacheInv (runResolves fs st reqs) := by
  induction reqs generalizing st with
  | nil => exact h
  | cons r rs ih =>
    exact ih _ (cacheInv_resolve fs st r.1 r.2.1 r.2.2.1 r.2.2.2 h)

/-- C4: at most one underlying load per distinct module path. First
conjunct: over any sequence of resolution requests starting at process
start, the load log never repeats a module path. Second conjunct: resolving
two different exported names of the same module path from the initial state
issues exactly the single load of that path. -/
theorem C4_one_load_per_path :
    (∀ fs reqs, (runResolves fs initCache reqs).loads.Nodup) ∧
      (∀ fs env (p x1 x2 : List Char),
        (resolveRef fs (resolveRef fs initCache env env p x1).1 env env p x2).1.loads = [p]) := by
  constructor
  · intro fs reqs
    exact (cacheInv_run fs reqs initCache cacheInv_init).1
  · intro fs env p x1 x2
    have h0 : lookupCache initCache p = none := by simp [lookupCache, initCache]
    have h1 : (resolveRef fs initCache env env p x1).1 = ⟨[(p, fs p)], [p]⟩ := by
      rw [resolveRef_fst, loadModule_miss fs initCache p h0]
      rfl
    rw [resolveRef_fst, h1,
      loadModule_hit fs ⟨[(p, fs p)], [p]⟩ p (fs p) (lookupCache_head [] [p] p (fs p))]

/-- C5: environment gating. Resolving a server-tagged reference while the
current environment is the client returns the `notApplicable` placeholder
and leaves the cache state untouched (so no load is performed), and
symmetrically for a client-tagged reference resolved on the server. -/
theorem C5_env_gating (fs : List Char → LoadOutcome) (st : CacheState) (p x : List Char) :
    resolveRef fs st .server .client p x = (st, .notApplicable) ∧
      resolveRef fs st .client .server p x = (st, .notApplicable) := by
  constructor <;> simp [resolveRef]

/-! ### In-flight load coalescing (cooperative concurrency model) -/

/-- State of one module path's load: not yet requested, in flight with its
coalesced waiting callers, or completed with an outcome. -/
inductive EntryState
  | notStarted
  | inFlight (waiters : List Nat)
  | done (out : LoadOutcome)
deriving DecidableEq, Repr

/-- Cooperative-scheduling state for one module path: the entry, the number
of underlying loads issued so far, and which caller received which outcome. -/
structure AsyncState where
  entry : EntryState
  loadsIssued : Nat
  delivered : List (Nat × LoadOutcome)
deriving DecidableEq, Repr

/-- State at process start: nothing requested, no load issued. -/
def initAsync : AsyncState := ⟨.notStarted, 0, []⟩

/-- Modelled from the spec: one caller requests resolution of the module
path (the in-flight-load deduplication map is not part of the provided
sources). The first request issues the single underlying load; a request
while the load is in flight only joins the waiter list; a request after
completion is answered from the recorded outcome at once, with no load. -/
def request (st : AsyncState) (caller : Nat) : AsyncState :=
  match st.entry with
  | .notStarted => { st with entry := .inFlight [caller], loadsIssued := st.loadsIssued + 1 }
  | .inFlight ws => { st with entry := .inFlight (ws ++ [caller]) }
  | .done out => { st with delivered := st.delivered ++ [(caller, out)] }

/-- Modelled from the spec: the single in-flight load completes with outcome
`out` (success or propagated failure); every coalesced waiter receives that
same outcome and the outcome is recorded. -/
def complete (st : AsyncState) (out : LoadOutcome) : AsyncState :=
  match st.entry with
  | .inFlight ws =>
    { entry := .done out
      loadsIssued := st.loadsIssued
      delivered := st.delivered ++ ws.map (fun c => (c, out)) }
  | _ => st

/-- N callers request the same not-yet-loaded module path before the load
completes; then the load completes with `out`. -/
def runConcurrent (callers : List Nat) (out : LoadOutcome) : AsyncState :=
  complete (callers.foldl request initAsync) out

theorem foldl_request_inFlight (cs ws : List Nat) (k : Nat)
    (d : List (Nat × LoadOutcome)) :
    cs.foldl request ⟨.inFlight ws, k, d⟩ = ⟨.inFlight (ws ++ cs), k, d⟩ := by
  induction cs generalizing ws with
  | nil => simp
  | cons c cs ih =>
    show cs.foldl request (request ⟨.inFlight ws, k, d⟩ c) = _
    rw [show request ⟨.inFlight ws, k, d⟩ c = ⟨.inFlight (ws ++ [c]), k, d⟩ from rfl, ih]
    simp

/-- C8: in-flight coalescing. When N callers concurrently request the same
not-yet-loaded module path, exactly one underlying load is issued, every
caller receives the same outcome (resolved value or propagated failure),
and a later request after completion is answered with that same outcome
while issuing no further load. -/
theorem C8_coalescing (callers : List Nat) (out : LoadOutcome) (late : Nat)
    (h : callers ≠ []) :
    (runConcurrent callers out).loadsIssued = 1 ∧
      (runConcurrent callers out).delivered = callers.map (fun c => (c, out)) ∧
      request (runConcurrent callers out) late =
        { runConcurrent callers out with
            delivered := (runConcurrent callers out).delivered ++ [(late, out)] } := by
  obtain ⟨c, cs, rfl⟩ : ∃ c cs, callers = c :: cs := by
    cases callers with
    | nil => exact absurd rfl h
    | cons c cs => exact ⟨c, cs, rfl⟩
  have hrun : runConcurrent (c :: cs) out =
      ⟨.done out, 1, (c :: cs).map (fun a => (a, out))⟩ := by
    rw [runConcurrent]
    show complete (cs.foldl request (request initAsync c)) out = _
    rw [show request initAsync c = ⟨.inFlight [c], 1, []⟩ from rfl,
      foldl_request_inFlight]
    rfl
  refine ⟨by rw [hrun], by rw [hrun], ?_⟩
  rw [hrun]
  rfl

theorem C8_coalescing_witness :
    (runConcurrent [0, 1] .failure).loadsIssued = 1 ∧
      (runConcurrent [0, 1] .failure).delivered =
        [0, 1].map (fun c => (c, LoadOutcome.failure)) ∧
      request (runConcurrent [0, 1] .failure) 2 =
        { runConcurrent [0, 1] .failure with
            delivered := (runConcurrent [0, 1] .failure).delivered ++
              [(2, LoadOutcome.failure)] } :=
  C8_coalescing [0, 1] .failure 2 (by decide)

/-! ### `getPageTitle` (src/examples/vue-full-v1/renderer/getPageTitle.ts) -/

/-- The `documentProps` object shape: `{ title: string }`. -/
structure DocumentProps where
  title : String
deriving DecidableEq, Repr

/-- The `config` field of the page context: `{ documentProps?: { title: string } }`. -/
structure PageConfig where
  documentProps : Option DocumentProps
deriving DecidableEq, Repr

/-- The page context taken by `getPageTitle`. -/
structure PageContext where
  config : PageConfig
  documentProps : Option DocumentProps
deriving DecidableEq, Repr

/-- `(o || \x7b\x7d).title`: reading `title` off the object, `undefined`
(`none`) when the object defaulted to the empty object. -/
def titleField (o : Option DocumentProps) : Option String :=
  o.map DocumentProps.title

/-- JS `a || b` where `a` is `undefined` or a string: falsy exactly when
`undefined` or the empty string. -/
def jsOr (a : Option String) (b : String) : String :=
  match a with
  | some t => if t = "" then b else t
  | none => b

/-- `getPageTitle` from the source: the static config title, or else the
dynamic `documentProps` title, or else the literal `Demo`. -/
def getPageTitle (pc : PageContext) : String :=
  jsOr (titleField pc.config.documentProps) (jsOr (titleField pc.documentProps) "Demo")

/-- The title selection as the claim words it: the config title when it is a
truthy string, otherwise the dynamic title when truthy, otherwise `Demo`. -/
def truthyTitle (o : Option DocumentProps) : Option String :=
  match o with
  | some d => if d.title = "" then none else some d.title
  | none => none

def claimedPageTitle (pc : PageContext) : String :=
  ((truthyTitle pc.config.documentProps).or (truthyTitle pc.documentProps)).getD "Demo"

/-- C9: `getPageTitle` returns the static `config.documentProps.title` when
that is a truthy string, otherwise the dynamic `documentProps.title` when
truthy, otherwise `Demo`; consequently the result is never the empty string,
and the static title takes precedence over the dynamic one. -/
theorem C9_getPageTitle (pc : PageContext) :
    getPageTitle pc = claimedPageTitle pc ∧ getPageTitle pc ≠ "" := by
  obtain ⟨⟨cd⟩, dd⟩ := pc
  constructor
  · cases cd <;> cases dd <;>
      simp only [getPageTitle, claimedPageTitle, titleField, jsOr, truthyTitle,
        Option.map_none', Option.map_some', Option.or, Option.getD] <;>
      split_ifs <;> simp_all
  · cases cd <;> cases dd <;>
      simp only [getPageTitle, titleField, jsOr, Option.map_none', Option.map_some'] <;>
      first
      | decide
      | (split_ifs <;> simp_all)

/-! ### Server entry browser guard (src/vite-plugin-ssr/node/index.ts) -/

/-- Modelled from the spec: `assertUsage` (its definition lives outside the
provided sources) surfaces the given usage-error message exactly when the
asserted condition is false. -/
def assertUsage (cond : Bool) (msg : String) : Except String Unit :=
  if cond then .ok () else .error msg

/-- The module-initialization effect of the server entry `node/index.ts`:
`assertUsage (!isBrowser()) ...`. The `isBrowser` flag (its definition lives
outside the provided sources) is passed explicitly. -/
def serverEntryInit (isBrowser : Bool) : Except String Unit :=
  assertUsage (!isBrowser) "The `vite-plugin-ssr` module cannot be imported in the browser."

/-- C10: importing the server entry fails if and only if the environment is
a browser, with the documented message; in a non-browser environment
the import completes without error. -/
theorem C10_server_entry_browser_guard :
    serverEntryInit true =
        .error "The `vite-plugin-ssr` module cannot be imported in the browser." ∧
      serverEntryInit false = .ok () :=
  ⟨rfl, rfl⟩

end VPS
